import Mathlib

/-!
Shallow embedding of the ztime command timer (github.com/howmanysmall/ztime).

Durations are modelled as `Int` nanosecond counts, mirroring Go's
`time.Duration` (an int64 of nanoseconds).  Go's integer conversion
`int(x)` truncates toward zero, modelled by `Int.tdiv`; Go's `%` on
integers is truncating, modelled by `Int.tmod`.  `strconv.FormatInt _ 10`
and `strconv.Itoa` agree with Lean's `toString` on `Int`.

Go's float64 arithmetic appears in two places.  For the decimal rendering
verbs (`%.2f`, `%05.2f`) it is modelled by exact rational arithmetic over
the nanosecond counts with round-half-to-even at the last kept decimal,
which agrees with Go at every value the theorems mention (all of them
exactly representable).  For `calculateCPUPercent`, where the float64
rounding is observable in the integer result, the computation is modelled
bit-exactly: `Fl` represents a finite IEEE-754 binary64 value by an
integer mantissa and exponent, and every Go operation rounds its exact
rational result to 53 significant bits, ties to even, with gradual
underflow at scale `2 ^ (-1074)` (the program's values stay far inside
the finite range, so overflow never arises).
-/

namespace Ztime

/-- Metrics mirrors the Go struct `Metrics` of the canonical draft:
timing fields are `time.Duration` nanosecond counts, the counters are
`int64` values taken from `syscall.Rusage`. -/
structure Metrics where
  Command : String
  UserTime : Int
  SystemTime : Int
  ElapsedTime : Int
  CPUPercent : Int
  MaxRSS : Int
  SharedRSS : Int
  UnsharedRSS : Int
  UnsharedData : Int
  UnsharedStk : Int
  PageFaults : Int
  PageReclaims : Int
  Swaps : Int
  BlockInput : Int
  BlockOutput : Int
  MsgsSent : Int
  MsgsRecv : Int
  Signals : Int
  VCtxSwitches : Int
  ICtxSwitches : Int

/-- The Go zero value of the `Metrics` struct. -/
def Metrics.zero : Metrics :=
  { Command := "", UserTime := 0, SystemTime := 0, ElapsedTime := 0, CPUPercent := 0,
    MaxRSS := 0, SharedRSS := 0, UnsharedRSS := 0, UnsharedData := 0, UnsharedStk := 0,
    PageFaults := 0, PageReclaims := 0, Swaps := 0, BlockInput := 0, BlockOutput := 0,
    MsgsSent := 0, MsgsRecv := 0, Signals := 0, VCtxSwitches := 0, ICtxSwitches := 0 }

/-- Left-pad a decimal string with zeros to width `w`, as Go's zero-padding
width flag does for the digits part. -/
def padZero (w : Nat) (s : String) : String :=
  String.mk (List.replicate (w - s.length) '0') ++ s

/-- Round a nanosecond count to centiseconds: the nearest integer to
`ns / 10 ^ 7`, ties to even.  This is the exact-arithmetic model of what
Go's `fmt` does when printing `float64(ns) / 1e9` with two decimals. -/
def centisRound (ns : Int) : Int :=
  let q := ns.fdiv 10000000
  let r := ns.fmod 10000000
  if 2 * r < 10000000 then q
  else if 10000000 < 2 * r then q + 1
  else if q.fmod 2 = 0 then q else q + 1

/-- Print a nonnegative centisecond count as a seconds string with exactly
two decimals, e.g. 250 becomes 2.50. -/
def centiCore (n : Int) : String :=
  toString (n.ediv 100) ++ String.singleton '.' ++ padZero 2 (toString (n.emod 100))

/-- Model of Go's `fmt.Fprintf(out, "%.2f", d.Seconds())` on a duration of
`ns` nanoseconds. -/
def fmtSec2 (ns : Int) : String :=
  let cs := centisRound ns
  if cs < 0 then String.singleton '-' ++ centiCore (-cs) else centiCore cs

/-- Model of Go's `%05.2f` verb on a duration of `ns` nanoseconds: two
decimals, zero-padded on the left to a total width of five (the sign, when
present, counts toward the width and precedes the padding). -/
def fmt052 (ns : Int) : String :=
  let cs := centisRound ns
  if cs < 0 then String.singleton '-' ++ padZero 4 (centiCore (-cs))
  else padZero 5 (centiCore cs)

/-- Nanoseconds per minute, `time.Minute`. -/
def nsPerMinute : Int := 60000000000

/-- Nanoseconds per hour, `time.Hour`. -/
def nsPerHour : Int := 3600000000000

/-- The elapsed-time rendering of the `E`-branch of Go's `handleStar`:
`hours := int(d.Hours())`, `mins := int(d.Minutes()) % 60`,
`secs := d.Seconds() - float64(int(d.Minutes())*60)`, printed as
`%d:%02d:%05.2f` when `hours > 0` and as `%d:%05.2f` otherwise. -/
def handleStar (ns : Int) : String :=
  let hours := ns.tdiv nsPerHour
  let minsAll := ns.tdiv nsPerMinute
  let mins := minsAll.tmod 60
  let secsNs := ns - minsAll * nsPerMinute
  if 0 < hours then
    toString hours ++ String.singleton ':' ++ padZero 2 (toString mins)
      ++ String.singleton ':' ++ fmt052 secsNs
  else
    toString mins ++ String.singleton ':' ++ fmt052 secsNs

/-- Number of binary digits of `n`, computed with an explicit fuel
argument so that it reduces by kernel evaluation; any fuel of at least
`n` yields the exact bit length. -/
def bitsFuel : Nat → Nat → Nat
  | 0, _ => 0
  | fuel+1, n => if n = 0 then 0 else bitsFuel fuel (n / 2) + 1

/-- Number of binary digits of `n`. -/
def bits (n : Nat) : Nat := bitsFuel n n

/-- Floor of the base-two logarithm of `a / b` for positive naturals,
computed from the bit lengths with one integer comparison to adjust. -/
def flog2 (a b : ℕ) : ℤ :=
  if b * 2 ^ ((bits a : ℤ) - (bits b : ℤ)).toNat
      ≤ a * 2 ^ (-((bits a : ℤ) - (bits b : ℤ))).toNat then
    (bits a : ℤ) - (bits b : ℤ)
  else
    (bits a : ℤ) - (bits b : ℤ) - 1

/-- Round the nonnegative fraction `num / den` to the nearest natural
number, ties to even. -/
def rndHalfEvenNat (num den : ℕ) : ℕ :=
  if 2 * (num % den) < den then num / den
  else if den < 2 * (num % den) then num / den + 1
  else if num / den % 2 = 0 then num / den else num / den + 1

/-- A finite IEEE-754 binary64 value, represented exactly: the real value
is `m * 2 ^ e`. -/
structure Fl where
  m : ℤ
  e : ℤ
deriving DecidableEq

/-- The exact rational value of a represented float (used in proofs
only, never computed). -/
def Fl.val (x : Fl) : ℚ := (x.m : ℚ) * 2 ^ x.e

/-- Round the exact rational `p / q` to the nearest binary64 value: the
nearest 53-bit mantissa, ties to even, with gradual underflow at scale
`2 ^ (-1074)`. -/
def roundRat (p q : ℤ) : Fl :=
  if p = 0 ∨ q = 0 then ⟨0, 0⟩
  else
    ⟨(if (0 < p ∧ 0 < q) ∨ (p < 0 ∧ q < 0) then 1 else -1)
        * (rndHalfEvenNat
            (p.natAbs * 2 ^ (-(max (flog2 p.natAbs q.natAbs - 52) (-1074))).toNat)
            (q.natAbs * 2 ^ (max (flog2 p.natAbs q.natAbs - 52) (-1074)).toNat) : ℤ),
      max (flog2 p.natAbs q.natAbs - 52) (-1074)⟩

/-- Round the exact value `p * 2 ^ e` to binary64. -/
def roundDyadic (p : ℤ) (e : ℤ) : Fl := roundRat (p * 2 ^ e.toNat) (2 ^ (-e).toNat)

/-- binary64 addition: the exact sum, aligned to the smaller exponent,
rounded once. -/
def Fl.add (x y : Fl) : Fl :=
  roundDyadic (x.m * 2 ^ (x.e - min x.e y.e).toNat + y.m * 2 ^ (y.e - min x.e y.e).toNat)
    (min x.e y.e)

/-- binary64 multiplication: the exact product rounded once. -/
def Fl.mul (x y : Fl) : Fl := roundDyadic (x.m * y.m) (x.e + y.e)

/-- binary64 division: the exact quotient rounded once. -/
def Fl.div (x y : Fl) : Fl :=
  roundRat (x.m * 2 ^ (x.e - y.e).toNat) (y.m * 2 ^ (y.e - x.e).toNat)

/-- Go conversion from int64 to float64 (rounds to nearest even beyond 53
bits). -/
def Fl.ofInt (n : ℤ) : Fl := roundRat n 1

/-- Go conversion from float64 to int: truncation toward zero. -/
def Fl.toInt (x : Fl) : ℤ := (x.m * 2 ^ x.e.toNat).tdiv (2 ^ (-x.e).toNat)

/-- Go's `Duration.Seconds()` on a duration of `d` nanoseconds:
`float64(d / 1e9) + float64(d % 1e9) / 1e9`, with the integer division
and remainder truncating and every float64 step rounding. -/
def goSeconds (d : ℤ) : Fl :=
  Fl.add (Fl.ofInt (d.tdiv 1000000000))
    (Fl.div (Fl.ofInt (d.tmod 1000000000)) (Fl.ofInt 1000000000))

/-- Go's `calculateCPUPercent`, computing in float64 exactly as the
source does: `totalCPU := user.Seconds() + sys.Seconds()`,
`realSec := elapsed.Seconds()`, and `int((totalCPU / realSec) * 100)`
when `realSec > 0`, else 0.  A float64 is positive exactly when its
mantissa is. -/
def calculateCPUPercent (user sys elapsed : Int) : Int :=
  if 0 < (goSeconds elapsed).m then
    Fl.toInt (Fl.mul (Fl.div (Fl.add (goSeconds user) (goSeconds sys)) (goSeconds elapsed))
      (Fl.ofInt 100))
  else 0

/-- Go's `handleIntSpecifier`: the switch over the integer-counter
specifier characters; `none` models returning `false` (unhandled). -/
def handleIntSpecifier (m : Metrics) (c : Char) : Option String :=
  if c = 'M' then some (toString m.MaxRSS)
  else if c = 'W' then some (toString m.Swaps)
  else if c = 'X' then some (toString m.SharedRSS)
  else if c = 'D' then some (toString (m.UnsharedData + m.UnsharedStk))
  else if c = 'K' then some (toString (m.SharedRSS + m.UnsharedData + m.UnsharedStk))
  else if c = 'F' then some (toString m.PageFaults)
  else if c = 'R' then some (toString m.PageReclaims)
  else if c = 'I' then some (toString m.BlockInput)
  else if c = 'O' then some (toString m.BlockOutput)
  else if c = 'r' then some (toString m.MsgsRecv)
  else if c = 's' then some (toString m.MsgsSent)
  else if c = 'k' then some (toString m.Signals)
  else if c = 'w' then some (toString m.VCtxSwitches)
  else if c = 'c' then some (toString m.ICtxSwitches)
  else none

/-- Go's `handleSpecifier`, restricted to the single-character specifiers:
the `'*'` case needs one character of lookahead and mutates the loop index,
so it lives in `format` below.  `none` models returning `false`. -/
def handleSpecifier (m : Metrics) (c : Char) : Option String :=
  if c = '%' then some (String.singleton '%')
  else if c = 'J' then some m.Command
  else if c = 'U' then some (fmtSec2 m.UserTime ++ String.singleton 's')
  else if c = 'S' then some (fmtSec2 m.SystemTime ++ String.singleton 's')
  else if c = 'E' then some (fmtSec2 m.ElapsedTime ++ String.singleton 's')
  else if c = 'P' then some (toString m.CPUPercent ++ String.singleton '%')
  else handleIntSpecifier m c

/-- The output `format` produces for a single-character specifier `c`: the
handled text, or the literal percent sign followed by `c` when
`handleSpecifier` reports the character unhandled. -/
def specOutput (m : Metrics) (c : Char) : String :=
  match handleSpecifier m c with
  | some s => s
  | none => String.singleton '%' ++ String.singleton c

/-- Go's `format` loop over the template bytes.  A `'%'` enters specifier
mode; in specifier mode a `'*'` followed by `'E'` consumes both characters
and renders the elapsed time (`handleStar`), a `'*'` not followed by `'E'`
emits a literal `'*'` (the else-branch of `handleStar`), any other
character is handled by `specOutput`; a trailing `'%'` with nothing after
it is emitted literally (the dangle case after the loop). -/
def format (m : Metrics) : List Char → String
  | [] => ""
  | c :: rest =>
    if c = '%' then
      match rest with
      | [] => String.singleton '%'
      | c2 :: rest2 =>
        if c2 = '*' then
          match rest2 with
          | 'E' :: rest3 => handleStar m.ElapsedTime ++ format m rest3
          | [] => String.singleton '*' ++ format m []
          | c3 :: rest3 => String.singleton '*' ++ format m (c3 :: rest3)
        else
          specOutput m c2 ++ format m rest2
    else
      String.singleton c ++ format m rest

/-- Render a template string against a `Metrics` value. -/
def render (tmpl : String) (m : Metrics) : String :=
  format m tmpl.data

/-- The default zsh-style template hard-coded in `main`. -/
def defaultTemplate : String := "%J  %U user %S system %P cpu %*E total"

/-- Template selection in `main`: `os.Getenv("TIMEFMT")` returns the empty
string when the variable is unset or empty, in which case the default
template is used. -/
def selectTemplate (timeFmt : String) : String :=
  if timeFmt = "" then defaultTemplate else timeFmt

/-- The specifier characters `format` recognizes after a percent sign. -/
def recognizedSpecifiers : List Char :=
  ['%', 'J', 'U', 'S', 'E', 'P', '*', 'M', 'W', 'X', 'D', 'K', 'F', 'R', 'I', 'O',
   'r', 's', 'k', 'w', 'c']

/-- Outcome of `cmd.Run()` as `main` distinguishes it: no error, an
`exec.ExitError` whose `WaitStatus` is `Signaled()`, an `exec.ExitError`
for a normal nonzero exit (`ExitCode()`), or any other error, which means
the command never started. -/
inductive RunError where
  | noError : RunError
  | exitSignaled : Int → RunError
  | exited : Int → RunError
  | startFailed : RunError

/-- The exit-code ladder at the end of `main`: `err == nil` exits 0, a
signaled child exits `128 + signal`, an `exec.ExitError` exits with the
child's exit code, and any other error exits 127. -/
def wrapperExitCode : RunError → Int
  | RunError.noError => 0
  | RunError.exitSignaled sig => 128 + sig
  | RunError.exited code => code
  | RunError.startFailed => 127

/-- POSIX signal number of SIGINT (`syscall.SIGINT`). -/
def SIGINT : Int := 2

/-- The fields of `syscall.Rusage` that `populateUsage` reads. -/
structure Rusage where
  Maxrss : Int
  Ixrss : Int
  Idrss : Int
  Isrss : Int
  Majflt : Int
  Minflt : Int
  Nswap : Int
  Inblock : Int
  Oublock : Int
  Msgsnd : Int
  Msgrcv : Int
  Nsignals : Int
  Nvcsw : Int
  Nivcsw : Int

/-- What `extractMetrics` reads from a non-nil `os.ProcessState`:
`UserTime()`, `SystemTime()`, and `SysUsage()`, the latter `none` when the
type assertion to `*syscall.Rusage` fails. -/
structure ProcState where
  userTime : Int
  systemTime : Int
  sysUsage : Option Rusage

/-- `populateUsage` from rusage_unix.go: copy the fourteen rusage counters
into the metrics when the type assertion succeeds, leave the metrics
untouched otherwise. -/
def populateUsage (m : Metrics) (sysUsage : Option Rusage) : Metrics :=
  match sysUsage with
  | none => m
  | some usage =>
    { m with
      MaxRSS := usage.Maxrss, SharedRSS := usage.Ixrss, UnsharedData := usage.Idrss,
      UnsharedStk := usage.Isrss, PageFaults := usage.Majflt, PageReclaims := usage.Minflt,
      Swaps := usage.Nswap, BlockInput := usage.Inblock, BlockOutput := usage.Oublock,
      MsgsSent := usage.Msgsnd, MsgsRecv := usage.Msgrcv, Signals := usage.Nsignals,
      VCtxSwitches := usage.Nvcsw, ICtxSwitches := usage.Nivcsw }

/-- Go's `extractMetrics`: `Command` is the space-join of the argument
vector, `ElapsedTime` is end minus start; when the process state is nil
(the command never ran) every other field keeps its zero value, otherwise
the CPU times, the derived CPU percentage, and the rusage counters are
filled in. -/
def extractMetrics (processState : Option ProcState) (startT endT : Int)
    (args : List String) : Metrics :=
  let elapsed := endT - startT
  let m :=
    { Metrics.zero with
      Command := String.intercalate (String.singleton ' ') args, ElapsedTime := elapsed }
  match processState with
  | none => m
  | some st =>
    let m1 := { m with UserTime := st.userTime, SystemTime := st.systemTime }
    let m2 := { m1 with CPUPercent := calculateCPUPercent m1.UserTime m1.SystemTime elapsed }
    populateUsage m2 st.sysUsage

/-- Metrics value of the spec's default-template example. -/
def mDefault : Metrics :=
  { Metrics.zero with
    Command := "sleep 1", UserTime := 500000000, SystemTime := 250000000,
    CPUPercent := 30, ElapsedTime := 2500000000 }

/-- Metrics value of the spec's integer-counter batch example. -/
def mCounters : Metrics :=
  { Metrics.zero with
    Swaps := 5, SharedRSS := 512, UnsharedData := 256, UnsharedStk := 128,
    PageFaults := 10, PageReclaims := 20, BlockInput := 100, BlockOutput := 200,
    MsgsRecv := 50, MsgsSent := 60, Signals := 2, VCtxSwitches := 15, ICtxSwitches := 25 }

/-- A template with an unrecognized specifier character. -/
def tmplPctZ : String := "%Z"

/-- The escaped-percent template of the spec's example. -/
def tmplHundred : String := "100%%"

/-- The integer-counter batch template of the spec's example. -/
def tmplCounters : String := "%W %X %D %K %F %R %I %O %r %s %k %w %c"

/-- A template containing no percent sign. -/
def tmplPlain : String := "hello world"

/-- Unfolding: the empty template renders to the empty string. -/
theorem format_nil (m : Metrics) : format m [] = "" := rfl

/-- Unfolding: a template that is a single percent sign renders to a
literal percent sign. -/
theorem format_dangle (m : Metrics) : format m ['%'] = String.singleton '%' := rfl

/-- Unfolding: a non-percent head character is copied verbatim. -/
theorem format_cons_ne (m : Metrics) (c : Char) (rest : List Char) (h : c ≠ '%') :
    format m (c :: rest) = String.singleton c ++ format m rest := by
  rw [format.eq_def]
  simp [h]

/-- Unfolding: the star-E sequence consumes three characters and renders
the elapsed time. -/
theorem format_starE (m : Metrics) (rest : List Char) :
    format m ('%' :: '*' :: 'E' :: rest) = handleStar m.ElapsedTime ++ format m rest := by
  rw [format.eq_def]
  simp

/-- Unfolding: a percent-star not followed by an E emits a literal star
and leaves the following character for the ordinary loop. -/
theorem format_star_ne (m : Metrics) (c : Char) (rest : List Char) (h : c ≠ 'E') :
    format m ('%' :: '*' :: c :: rest) = String.singleton '*' ++ format m (c :: rest) := by
  rw [format.eq_def]
  simp [h]

/-- Unfolding: a percent followed by any non-star character is handled by
`specOutput`. -/
theorem format_spec_cons (m : Metrics) (c : Char) (rest : List Char) (h : c ≠ '*') :
    format m ('%' :: c :: rest) = specOutput m c ++ format m rest := by
  rw [format.eq_def]
  simp [h]

/-- A template without percent signs is copied to the output verbatim. -/
theorem format_no_pct (m : Metrics) :
    ∀ s : List Char, '%' ∉ s → format m s = String.mk s := by
  intro s hs
  induction s with
  | nil => rfl
  | cons c rest ih =>
    rw [List.mem_cons] at hs
    push_neg at hs
    obtain ⟨h1, h2⟩ := hs
    rw [format_cons_ne m c rest (fun hc => h1 hc.symm), ih h2]
    rfl

/-- The single-character specifier output never reads the UnsharedRSS
field. -/
theorem specOutput_set (m : Metrics) (v : Int) (c : Char) :
    specOutput { m with UnsharedRSS := v } c = specOutput m c := rfl

/-- The formatter never reads the UnsharedRSS field: overwriting it does
not change any rendering. -/
theorem format_set_unsharedRSS (m : Metrics) (v : Int) :
    ∀ s : List Char, format { m with UnsharedRSS := v } s = format m s := by
  intro s
  induction s using format.induct (m := m) with
  | case1 => rfl
  | case2 => rfl
  | case3 rest ih => rw [format_starE, format_starE, ih]
  | case4 _ => rfl
  | case5 c rest h ih =>
    rw [format_star_ne _ _ _ (fun hE => h hE), format_star_ne _ _ _ (fun hE => h hE), ih]
  | case6 c rest h ih =>
    rw [format_spec_cons _ _ _ h, format_spec_cons _ _ _ h, ih, specOutput_set]
  | case7 c rest h ih => rw [format_cons_ne _ _ _ h, format_cons_ne _ _ _ h, ih]

/-- Fuel of zero digits: zero input always yields zero bits. -/
theorem bitsFuel_zero (fuel : ℕ) : bitsFuel fuel 0 = 0 := by
  cases fuel <;> simp [bitsFuel]

/-- With enough fuel, `bitsFuel` brackets its input between consecutive
powers of two. -/
theorem bitsFuel_spec :
    ∀ (fuel n : ℕ), 0 < n → n ≤ fuel →
      2 ^ (bitsFuel fuel n - 1) ≤ n ∧ n < 2 ^ bitsFuel fuel n := by
  intro fuel
  induction fuel with
  | zero => intro n h1 h2; omega
  | succ fuel ih =>
    intro n h1 h2
    rw [bitsFuel, if_neg (by omega)]
    rcases Nat.lt_or_ge n 2 with hn | hn
    · have hn1 : n = 1 := by omega
      subst hn1
      simp [bitsFuel_zero]
    · have hhalf : 0 < n / 2 := by omega
      have hle : n / 2 ≤ fuel := by omega
      obtain ⟨ihl, ihr⟩ := ih (n / 2) hhalf hle
      have hb : 0 < bitsFuel fuel (n / 2) := by
        by_contra hb0
        push_neg at hb0
        have hz : bitsFuel fuel (n / 2) = 0 := by omega
        rw [hz] at ihr
        simp at ihr
        omega
      constructor
      · have h2p : 2 ^ (bitsFuel fuel (n / 2) + 1 - 1) = 2 * 2 ^ (bitsFuel fuel (n / 2) - 1) := by
          rw [Nat.add_sub_cancel]
          conv_lhs => rw [show bitsFuel fuel (n / 2) = (bitsFuel fuel (n / 2) - 1) + 1 by omega]
          rw [Nat.pow_succ]
          ring
        rw [h2p]
        omega
      · have h2p : 2 ^ (bitsFuel fuel (n / 2) + 1) = 2 * 2 ^ bitsFuel fuel (n / 2) := by
          rw [Nat.pow_succ]; ring
        rw [h2p]
        omega

/-- The bit length brackets a positive natural between consecutive powers
of two. -/
theorem bits_spec (n : ℕ) (h : 0 < n) : 2 ^ (bits n - 1) ≤ n ∧ n < 2 ^ bits n :=
  bitsFuel_spec n n h le_rfl

/-- A positive natural has a positive bit length. -/
theorem bits_pos (n : ℕ) (h : 0 < n) : 0 < bits n := by
  obtain ⟨h1, h2⟩ := bits_spec n h
  by_contra hb
  push_neg at hb
  have hz : bits n = 0 := by omega
  rw [hz] at h2
  simp at h2
  omega

/-- Rounding to nearest never falls below the floor. -/
theorem le_rndHalfEvenNat (num den : ℕ) : num / den ≤ rndHalfEvenNat num den := by
  unfold rndHalfEvenNat
  split_ifs <;> omega

/-- The computed floor logarithm is a lower bound: `2 ^ flog2 a b` is at
most `a / b`. -/
theorem flog2_le (a b : ℕ) (ha : 0 < a) (hb : 0 < b) :
    (2:ℚ) ^ flog2 a b ≤ (a:ℚ) / (b:ℚ) := by
  have hbq : (0:ℚ) < (b:ℚ) := by exact_mod_cast hb
  rw [le_div_iff₀ hbq]
  unfold flog2
  split_ifs with hcond
  · set d : ℤ := (bits a : ℤ) - (bits b : ℤ) with hd
    have hc : ((b * 2 ^ d.toNat : ℕ) : ℚ) ≤ ((a * 2 ^ (-d).toNat : ℕ) : ℚ) := Nat.cast_le.mpr hcond
    push_cast at hc
    have hY : (0:ℚ) < (2:ℚ) ^ ((-d).toNat : ℤ) := zpow_pos (by norm_num) _
    have hz : (2:ℚ) ^ d * (2:ℚ) ^ ((-d).toNat : ℤ) = (2:ℚ) ^ (d.toNat : ℤ) := by
      rw [← zpow_add₀ (by norm_num : (2:ℚ) ≠ 0)]
      congr 1
      omega
    have hc2 : ((2:ℚ) ^ d * (b:ℚ)) * (2:ℚ) ^ ((-d).toNat : ℤ) ≤ (a:ℚ) * (2:ℚ) ^ ((-d).toNat : ℤ) := by
      calc ((2:ℚ) ^ d * (b:ℚ)) * (2:ℚ) ^ ((-d).toNat : ℤ)
          = (b:ℚ) * ((2:ℚ) ^ d * (2:ℚ) ^ ((-d).toNat : ℤ)) := by ring
        _ = (b:ℚ) * (2:ℚ) ^ (d.toNat : ℤ) := by rw [hz]
        _ ≤ (a:ℚ) * (2:ℚ) ^ ((-d).toNat : ℤ) := by
            rw [zpow_natCast, zpow_natCast]
            exact hc
    exact le_of_mul_le_mul_right hc2 hY
  · set d : ℤ := (bits a : ℤ) - (bits b : ℤ) with hd
    obtain ⟨hA, _⟩ := bits_spec a ha
    obtain ⟨_, hB⟩ := bits_spec b hb
    have hbp := bits_pos a ha
    have hAq : ((2:ℚ) ^ ((bits a - 1 : ℕ) : ℤ)) ≤ (a:ℚ) := by
      rw [zpow_natCast]
      exact_mod_cast hA
    have hBq : (b:ℚ) ≤ (2:ℚ) ^ ((bits b : ℕ) : ℤ) := by
      rw [zpow_natCast]
      exact_mod_cast hB.le
    calc (2:ℚ) ^ (d - 1) * (b:ℚ)
        ≤ (2:ℚ) ^ (d - 1) * (2:ℚ) ^ ((bits b : ℕ) : ℤ) := by
          apply mul_le_mul_of_nonneg_left hBq (zpow_pos (by norm_num) _).le
      _ = (2:ℚ) ^ ((bits a - 1 : ℕ) : ℤ) := by
          rw [← zpow_add₀ (by norm_num : (2:ℚ) ≠ 0)]
          congr 1
          omega
      _ ≤ (a:ℚ) := hAq

/-- A represented float is positive exactly when its mantissa is. -/
theorem Fl.val_pos_iff (x : Fl) : 0 < x.val ↔ 0 < x.m := by
  rw [Fl.val]
  constructor
  · intro h
    by_contra hm
    push_neg at hm
    have hmq : (x.m : ℚ) ≤ 0 := by exact_mod_cast hm
    have : (x.m : ℚ) * 2 ^ x.e ≤ 0 :=
      mul_nonpos_iff.mpr (Or.inr ⟨hmq, (zpow_pos (by norm_num) _).le⟩)
    linarith
  · intro h
    exact mul_pos (by exact_mod_cast h) (zpow_pos (by norm_num) _)

/-- A nonnegative mantissa gives a nonnegative value. -/
theorem Fl.val_nonneg (x : Fl) (h : 0 ≤ x.m) : 0 ≤ x.val :=
  mul_nonneg (by exact_mod_cast h) (zpow_pos (by norm_num : (0:ℚ) < 2) _).le

/-- Rounding a nonnegative fraction gives a nonnegative mantissa. -/
theorem roundRat_m_nonneg (p q : ℤ) (hp : 0 ≤ p) (hq : 0 < q) : 0 ≤ (roundRat p q).m := by
  unfold roundRat
  split_ifs with h1 h2
  · exact le_refl 0
  · simp only [Fl.mk.injEq, one_mul]
    exact Int.natCast_nonneg _
  · exfalso
    push_neg at h1
    exact h2 (Or.inl ⟨by omega, hq⟩)

/-- Rounding a nonpositive fraction gives a nonpositive mantissa. -/
theorem roundRat_m_nonpos (p q : ℤ) (hp : p ≤ 0) (hq : 0 < q) : (roundRat p q).m ≤ 0 := by
  unfold roundRat
  split_ifs with h1 h2
  · exact le_refl 0
  · exfalso
    push_neg at h1
    rcases h2 with ⟨hp2, _⟩ | ⟨_, hq2⟩ <;> omega
  · simp only [neg_mul, one_mul, neg_nonpos]
    exact Int.natCast_nonneg _

/-- Rounding never drops below a power of two the exact fraction
reaches, down to the subnormal threshold. -/
theorem roundRat_val_ge (k p q : ℤ) (hk : -1074 ≤ k) (hq : 0 < q)
    (h : (2:ℚ) ^ k ≤ (p:ℚ) / (q:ℚ)) : (2:ℚ) ^ k ≤ (roundRat p q).val := by
  have hqq : (0:ℚ) < (q:ℚ) := by exact_mod_cast hq
  have hp : 0 < p := by
    by_contra hple
    push_neg at hple
    have hpq : (p:ℚ) ≤ 0 := by exact_mod_cast hple
    have h1 : (p:ℚ) / (q:ℚ) ≤ 0 := div_nonpos_of_nonpos_of_nonneg hpq hqq.le
    have h2 := lt_of_lt_of_le (zpow_pos (by norm_num : (0:ℚ) < 2) k) h
    linarith
  have hcast : ((p.natAbs : ℕ) : ℚ) = (p:ℚ) := by
    rw [Int.cast_natAbs]
    exact_mod_cast abs_of_pos hp
  have hcastb : ((q.natAbs : ℕ) : ℚ) = (q:ℚ) := by
    rw [Int.cast_natAbs]
    exact_mod_cast abs_of_pos hq
  have hb : 0 < q.natAbs := Int.natAbs_pos.mpr (by omega)
  have ha : 0 < p.natAbs := Int.natAbs_pos.mpr (by omega)
  unfold roundRat
  rw [if_neg (by push_neg; exact ⟨by omega, by omega⟩), if_pos (Or.inl ⟨hp, hq⟩)]
  set a := p.natAbs with hadef
  set b := q.natAbs with hbdef
  set e : ℤ := max (flog2 a b - 52) (-1074) with hedef
  set num : ℕ := a * 2 ^ (-e).toNat with hnum
  set den : ℕ := b * 2 ^ e.toNat with hden
  have hdenpos : 0 < den := Nat.mul_pos hb (Nat.pos_pow_of_pos _ (by norm_num))
  have hrnd : num / den ≤ rndHalfEvenNat num den := le_rndHalfEvenNat num den
  have habq : (2:ℚ) ^ k ≤ (a:ℚ) / (b:ℚ) := by rw [hcast, hcastb]; exact h
  have key : ∀ n : ℕ, (2:ℚ) ^ (n:ℤ) * (2:ℚ) ^ e ≤ (a:ℚ) / (b:ℚ) →
      ((2:ℚ) ^ (n:ℤ)) ≤ (rndHalfEvenNat num den : ℚ) := by
    intro n hcond
    have hstep : 2 ^ n * den ≤ num := by
      have hq1 : (2:ℚ) ^ (n:ℤ) * (2:ℚ) ^ e * (b:ℚ) ≤ (a:ℚ) := by
        rw [← le_div_iff₀ (by exact_mod_cast hb : (0:ℚ) < (b:ℚ))]
        exact hcond
      have hq2 : ((2 ^ n * den : ℕ) : ℚ) ≤ ((num : ℕ) : ℚ) := by
        rw [hnum, hden]
        push_cast
        have hz : (2:ℚ) ^ (n:ℤ) * (2:ℚ) ^ e * (2:ℚ) ^ (((-e).toNat : ℕ) : ℤ)
            = (2:ℚ) ^ ((n:ℕ) : ℤ) * (2:ℚ) ^ ((e.toNat : ℕ) : ℤ) := by
          rw [← zpow_add₀ (by norm_num : (2:ℚ) ≠ 0), ← zpow_add₀ (by norm_num : (2:ℚ) ≠ 0),
            ← zpow_add₀ (by norm_num : (2:ℚ) ≠ 0)]
          congr 1
          omega
        calc (2:ℚ) ^ (n:ℕ) * ((b:ℚ) * (2:ℚ) ^ (e.toNat : ℕ))
            = ((2:ℚ) ^ ((n:ℕ):ℤ) * (2:ℚ) ^ ((e.toNat : ℕ):ℤ)) * (b:ℚ) := by
              rw [zpow_natCast, zpow_natCast]; ring
          _ = ((2:ℚ) ^ (n:ℤ) * (2:ℚ) ^ e * (2:ℚ) ^ (((-e).toNat : ℕ) : ℤ)) * (b:ℚ) := by
              rw [hz]
          _ = ((2:ℚ) ^ (n:ℤ) * (2:ℚ) ^ e * (b:ℚ)) * (2:ℚ) ^ (((-e).toNat : ℕ) : ℤ) := by
              ring
          _ ≤ (a:ℚ) * (2:ℚ) ^ (((-e).toNat : ℕ) : ℤ) := by
              apply mul_le_mul_of_nonneg_right hq1 (zpow_pos (by norm_num) _).le
          _ = (a:ℚ) * (2:ℚ) ^ ((-e).toNat : ℕ) := by rw [zpow_natCast]
      exact_mod_cast hq2
    have hfloor : 2 ^ n ≤ num / den := (Nat.le_div_iff_mul_le hdenpos).mpr hstep
    have : (2:ℕ) ^ n ≤ rndHalfEvenNat num den := le_trans hfloor hrnd
    rw [zpow_natCast]
    exact_mod_cast this
  show (2:ℚ) ^ k ≤ Fl.val _
  rw [Fl.val]
  simp only [one_mul]
  push_cast
  rcases le_or_lt e k with hek | hke
  · have hn : ((k - e).toNat : ℤ) = k - e := Int.toNat_of_nonneg (by omega)
    have hcond : (2:ℚ) ^ (((k - e).toNat : ℕ) : ℤ) * (2:ℚ) ^ e ≤ (a:ℚ) / (b:ℚ) := by
      rw [hn, ← zpow_add₀ (by norm_num : (2:ℚ) ≠ 0)]
      have harith : k - e + e = k := by omega
      rw [harith]
      exact habq
    have hm := key _ hcond
    calc (2:ℚ) ^ k = (2:ℚ) ^ (((k - e).toNat : ℕ) : ℤ) * (2:ℚ) ^ e := by
          rw [hn, ← zpow_add₀ (by norm_num : (2:ℚ) ≠ 0)]
          congr 1
          omega
      _ ≤ (rndHalfEvenNat num den : ℚ) * (2:ℚ) ^ e := by
          apply mul_le_mul_of_nonneg_right hm (zpow_pos (by norm_num) _).le
  · have he0 : e = flog2 a b - 52 := by
      rcases max_cases (flog2 a b - 52) (-1074 : ℤ) with ⟨h1, h2⟩ | ⟨h1, h2⟩ <;> omega
    have hcond : (2:ℚ) ^ ((52 : ℕ) : ℤ) * (2:ℚ) ^ e ≤ (a:ℚ) / (b:ℚ) := by
      have harith : ((52 : ℕ) : ℤ) + e = flog2 a b := by omega
      rw [← zpow_add₀ (by norm_num : (2:ℚ) ≠ 0), harith]
      exact flog2_le a b ha hb
    have hm := key 52 hcond
    calc (2:ℚ) ^ k ≤ (2:ℚ) ^ flog2 a b := by
          apply zpow_le_zpow_right₀ (by norm_num)
          omega
      _ = (2:ℚ) ^ ((52 : ℕ) : ℤ) * (2:ℚ) ^ e := by
          rw [← zpow_add₀ (by norm_num : (2:ℚ) ≠ 0)]
          congr 1
          omega
      _ ≤ (rndHalfEvenNat num den : ℚ) * (2:ℚ) ^ e := by
          apply mul_le_mul_of_nonneg_right hm (zpow_pos (by norm_num) _).le

/-- The two arguments of `roundDyadic` form the exact value `p * 2 ^ e`. -/
theorem roundDyadic_ratio (p e : ℤ) :
    ((p * 2 ^ e.toNat : ℤ) : ℚ) / ((2 ^ (-e).toNat : ℤ) : ℚ) = (p:ℚ) * 2 ^ e := by
  rw [div_eq_iff (by positivity : ((2 ^ (-e).toNat : ℤ) : ℚ) ≠ 0)]
  push_cast
  rw [← zpow_natCast (2:ℚ) e.toNat, ← zpow_natCast (2:ℚ) (-e).toNat, mul_assoc,
    ← zpow_add₀ (by norm_num : (2:ℚ) ≠ 0)]
  congr 2
  omega

/-- `roundRat_val_ge` transported to dyadic inputs. -/
theorem roundDyadic_val_ge (k p e : ℤ) (hk : -1074 ≤ k)
    (h : (2:ℚ) ^ k ≤ (p:ℚ) * 2 ^ e) : (2:ℚ) ^ k ≤ (roundDyadic p e).val := by
  apply roundRat_val_ge k _ _ hk (by positivity)
  rw [roundDyadic_ratio]
  exact h

/-- Rounding a nonpositive dyadic gives a nonpositive mantissa. -/
theorem roundDyadic_m_nonpos (p e : ℤ) (hp : p ≤ 0) : (roundDyadic p e).m ≤ 0 :=
  roundRat_m_nonpos _ _ (by
    have hpow : (0:ℤ) < 2 ^ e.toNat := by positivity
    exact mul_nonpos_iff.mpr (Or.inr ⟨hp, hpow.le⟩)) (by positivity)

/-- The first argument of the addition is the exact sum of the two
values. -/
theorem Fl.add_exact (x y : Fl) :
    ((x.m * 2 ^ (x.e - min x.e y.e).toNat + y.m * 2 ^ (y.e - min x.e y.e).toNat : ℤ) : ℚ)
        * 2 ^ (min x.e y.e : ℤ) = x.val + y.val := by
  push_cast
  rw [Fl.val, Fl.val, add_mul]
  congr 1
  · rw [mul_assoc, ← zpow_natCast (2:ℚ) (x.e - min x.e y.e).toNat,
      ← zpow_add₀ (by norm_num : (2:ℚ) ≠ 0)]
    congr 2
    omega
  · rw [mul_assoc, ← zpow_natCast (2:ℚ) (y.e - min x.e y.e).toNat,
      ← zpow_add₀ (by norm_num : (2:ℚ) ≠ 0)]
    congr 2
    omega

/-- Adding two nonpositive floats gives a nonpositive mantissa. -/
theorem Fl.add_m_nonpos (x y : Fl) (hx : x.m ≤ 0) (hy : y.m ≤ 0) : (Fl.add x y).m ≤ 0 := by
  apply roundDyadic_m_nonpos
  have h1 : (0:ℤ) < 2 ^ (x.e - min x.e y.e).toNat := by positivity
  have h2 : (0:ℤ) < 2 ^ (y.e - min x.e y.e).toNat := by positivity
  have hx2 := mul_nonpos_iff.mpr (Or.inr ⟨hx, h1.le⟩)
  have hy2 := mul_nonpos_iff.mpr (Or.inr ⟨hy, h2.le⟩)
  omega

/-- A float addition never falls below a reachable power of two of the
exact sum. -/
theorem Fl.add_val_ge (k : ℤ) (x y : Fl) (hk : -1074 ≤ k)
    (h : (2:ℚ) ^ k ≤ x.val + y.val) : (2:ℚ) ^ k ≤ (Fl.add x y).val := by
  apply roundDyadic_val_ge k _ _ hk
  rw [← Fl.add_exact x y] at h
  push_cast at h ⊢
  exact h

/-- The two arguments of the division form the exact quotient of the two
values. -/
theorem Fl.div_ratio (x y : Fl) (hy : y.m ≠ 0) :
    ((x.m * 2 ^ (x.e - y.e).toNat : ℤ) : ℚ) / ((y.m * 2 ^ (y.e - x.e).toNat : ℤ) : ℚ)
      = x.val / y.val := by
  have hyq : ((y.m : ℤ) : ℚ) ≠ 0 := by exact_mod_cast hy
  rw [Fl.val, Fl.val, div_eq_div_iff]
  · push_cast
    rw [← zpow_natCast (2:ℚ) (x.e - y.e).toNat, ← zpow_natCast (2:ℚ) (y.e - x.e).toNat]
    have hz : (2:ℚ) ^ (((x.e - y.e).toNat : ℕ) : ℤ) * (2:ℚ) ^ y.e
        = (2:ℚ) ^ x.e * (2:ℚ) ^ (((y.e - x.e).toNat : ℕ) : ℤ) := by
      rw [← zpow_add₀ (by norm_num : (2:ℚ) ≠ 0), ← zpow_add₀ (by norm_num : (2:ℚ) ≠ 0)]
      congr 1
      omega
    calc (x.m:ℚ) * 2 ^ (((x.e - y.e).toNat : ℕ) : ℤ) * ((y.m:ℚ) * 2 ^ y.e)
        = (x.m:ℚ) * (y.m:ℚ) * ((2:ℚ) ^ (((x.e - y.e).toNat : ℕ) : ℤ) * (2:ℚ) ^ y.e) := by ring
      _ = (x.m:ℚ) * (y.m:ℚ) * ((2:ℚ) ^ x.e * (2:ℚ) ^ (((y.e - x.e).toNat : ℕ) : ℤ)) := by
          rw [hz]
      _ = (x.m:ℚ) * 2 ^ x.e * ((y.m:ℚ) * 2 ^ (((y.e - x.e).toNat : ℕ) : ℤ)) := by ring
  · push_cast
    intro hcon
    rcases mul_eq_zero.mp hcon with h1 | h1
    · exact hyq h1
    · have hpow : (0:ℚ) < 2 ^ ((y.e - x.e).toNat : ℕ) := by positivity
      rw [h1] at hpow
      exact lt_irrefl 0 hpow
  · intro hcon
    rcases mul_eq_zero.mp hcon with h1 | h1
    · exact hyq h1
    · have hpow : (0:ℚ) < (2:ℚ) ^ y.e := zpow_pos (by norm_num) _
      rw [h1] at hpow
      exact lt_irrefl 0 hpow

/-- Dividing a nonpositive float by a positive one gives a nonpositive
mantissa. -/
theorem Fl.div_m_nonpos (x y : Fl) (hx : x.m ≤ 0) (hy : 0 < y.m) : (Fl.div x y).m ≤ 0 := by
  apply roundRat_m_nonpos
  · have h1 : (0:ℤ) < 2 ^ (x.e - y.e).toNat := by positivity
    exact mul_nonpos_iff.mpr (Or.inr ⟨hx, h1.le⟩)
  · positivity

/-- Dividing a nonnegative float by a positive one gives a nonnegative
mantissa. -/
theorem Fl.div_m_nonneg (x y : Fl) (hx : 0 ≤ x.m) (hy : 0 < y.m) : 0 ≤ (Fl.div x y).m := by
  apply roundRat_m_nonneg
  · positivity
  · positivity

/-- Converting a nonpositive integer gives a nonpositive mantissa. -/
theorem Fl.ofInt_m_nonpos (n : ℤ) (h : n ≤ 0) : (Fl.ofInt n).m ≤ 0 :=
  roundRat_m_nonpos n 1 h one_pos

/-- Converting a nonnegative integer gives a nonnegative mantissa. -/
theorem Fl.ofInt_m_nonneg (n : ℤ) (h : 0 ≤ n) : 0 ≤ (Fl.ofInt n).m :=
  roundRat_m_nonneg n 1 h one_pos

/-- The conversion of an integer never falls below a reachable power of
two. -/
theorem Fl.ofInt_val_ge (k n : ℤ) (hk : -1074 ≤ k) (h : (2:ℚ) ^ k ≤ (n:ℚ)) :
    (2:ℚ) ^ k ≤ (Fl.ofInt n).val := by
  apply roundRat_val_ge k n 1 hk one_pos
  rw [Int.cast_one, div_one]
  exact h

/-- A truncating division and remainder of a nonpositive number are
nonpositive. -/
theorem tdiv_tmod_sign (d : ℤ) (h : d ≤ 0) :
    d.tdiv 1000000000 ≤ 0 ∧ d.tmod 1000000000 ≤ 0 := by
  have hA := Int.tdiv_add_tmod d 1000000000
  have hB := Int.tdiv_add_tmod (-d) 1000000000
  have hC := Int.neg_tdiv d 1000000000
  have hD : 0 ≤ (-d).tmod 1000000000 := Int.tmod_nonneg _ (by omega)
  have hE : 0 ≤ (-d).tdiv 1000000000 := Int.tdiv_nonneg (by omega) (by norm_num)
  omega

/-- The float64 holding one billion, exactly. -/
theorem ofInt_1e9_eq : Fl.ofInt 1000000000 = ⟨8388608000000000, -23⟩ := by decide

/-- The float64 holding one billion has a positive mantissa. -/
theorem ofInt_1e9_m_pos : 0 < (Fl.ofInt 1000000000).m := by
  rw [ofInt_1e9_eq]
  norm_num

/-- One billion is exactly representable in binary64. -/
theorem ofInt_1e9_val : (Fl.ofInt 1000000000).val = 1000000000 := by
  rw [ofInt_1e9_eq, Fl.val]
  show (8388608000000000 : ℚ) * 2 ^ (-23 : ℤ) = 1000000000
  rw [zpow_neg]
  rw [show ((2:ℚ) ^ (23:ℤ)) = 8388608 by norm_num]
  norm_num

/-- A nonpositive duration has nonpositive float seconds. -/
theorem goSeconds_m_nonpos (d : ℤ) (h : d ≤ 0) : (goSeconds d).m ≤ 0 := by
  obtain ⟨h1, h2⟩ := tdiv_tmod_sign d h
  apply Fl.add_m_nonpos
  · exact Fl.ofInt_m_nonpos _ h1
  · exact Fl.div_m_nonpos _ _ (Fl.ofInt_m_nonpos _ h2) ofInt_1e9_m_pos

/-- The scale `2 ^ (-30)` sits below one nanosecond expressed in seconds. -/
theorem two_zpow_neg30_le : (2:ℚ) ^ (-30 : ℤ) ≤ 1 / 1000000000 := by
  rw [zpow_neg]
  rw [show ((2:ℚ) ^ (30:ℤ)) = 1073741824 by norm_num]
  norm_num

/-- A positive duration, however small, has positive float seconds: even
one nanosecond stays far above the underflow threshold. -/
theorem goSeconds_m_pos (d : ℤ) (h : 0 < d) : 0 < (goSeconds d).m := by
  rw [← Fl.val_pos_iff]
  have hsec0 : 0 ≤ d.tdiv 1000000000 := Int.tdiv_nonneg h.le (by norm_num)
  have hnsec0 : 0 ≤ d.tmod 1000000000 := Int.tmod_nonneg _ h.le
  have hid := Int.tdiv_add_tmod d 1000000000
  rcases le_or_lt 1 (d.tdiv 1000000000) with hs1 | hs0
  · have hA : (2:ℚ) ^ (0:ℤ) ≤ (Fl.ofInt (d.tdiv 1000000000)).val := by
      apply Fl.ofInt_val_ge 0 _ (by norm_num)
      rw [zpow_zero]
      exact_mod_cast hs1
    have hBm : 0 ≤ (Fl.div (Fl.ofInt (d.tmod 1000000000)) (Fl.ofInt 1000000000)).m :=
      Fl.div_m_nonneg _ _ (Fl.ofInt_m_nonneg _ hnsec0) ofInt_1e9_m_pos
    have hB : 0 ≤ (Fl.div (Fl.ofInt (d.tmod 1000000000)) (Fl.ofInt 1000000000)).val :=
      Fl.val_nonneg _ hBm
    have hge : (2:ℚ) ^ (0:ℤ) ≤ (goSeconds d).val := by
      apply Fl.add_val_ge 0 _ _ (by norm_num)
      calc (2:ℚ) ^ (0:ℤ) ≤ (Fl.ofInt (d.tdiv 1000000000)).val := hA
        _ ≤ (Fl.ofInt (d.tdiv 1000000000)).val
              + (Fl.div (Fl.ofInt (d.tmod 1000000000)) (Fl.ofInt 1000000000)).val := by
            linarith
    exact lt_of_lt_of_le (zpow_pos (by norm_num) _) hge
  · have hsz : d.tdiv 1000000000 = 0 := by omega
    have hnsec1 : 1 ≤ d.tmod 1000000000 := by omega
    have hA0 : Fl.ofInt (d.tdiv 1000000000) = ⟨0, 0⟩ := by
      rw [hsz]
      decide
    have hAval : (Fl.ofInt (d.tdiv 1000000000)).val = 0 := by
      rw [hA0, Fl.val]
      norm_num
    have hBval : (2:ℚ) ^ (-30:ℤ)
        ≤ (Fl.div (Fl.ofInt (d.tmod 1000000000)) (Fl.ofInt 1000000000)).val := by
      show (2:ℚ) ^ (-30:ℤ) ≤ (roundRat _ _).val
      apply roundRat_val_ge (-30) _ _ (by norm_num)
      · exact mul_pos ofInt_1e9_m_pos (by positivity)
      · rw [Fl.div_ratio _ _ (ne_of_gt ofInt_1e9_m_pos), ofInt_1e9_val]
        have hx : (1:ℚ) ≤ (Fl.ofInt (d.tmod 1000000000)).val := by
          have hge1 := Fl.ofInt_val_ge 0 (d.tmod 1000000000) (by norm_num)
            (by rw [zpow_zero]; exact_mod_cast hnsec1)
          rwa [zpow_zero] at hge1
        calc (2:ℚ) ^ (-30:ℤ) ≤ 1 / 1000000000 := two_zpow_neg30_le
          _ ≤ (Fl.ofInt (d.tmod 1000000000)).val / 1000000000 := by gcongr
    have hge : (2:ℚ) ^ (-30:ℤ) ≤ (goSeconds d).val := by
      apply Fl.add_val_ge (-30) _ _ (by norm_num)
      rw [hAval, zero_add]
      exact hBval
    exact lt_of_lt_of_le (zpow_pos (by norm_num) _) hge

/-- The float seconds of a duration are positive exactly when its
nanosecond count is. -/
theorem goSeconds_m_pos_iff (d : ℤ) : 0 < (goSeconds d).m ↔ 0 < d := by
  constructor
  · intro hpos
    by_contra hd
    push_neg at hd
    have := goSeconds_m_nonpos d hd
    omega
  · exact goSeconds_m_pos d

set_option maxRecDepth 8000 in
/-- C1 counterexample: at user 290 ms, sys 0, elapsed 1 s the program
computes 28 — the truncation of the float64 product of the rounded 0.29
with 100, whose value lies just below 29 — while the exact truncated
ratio the claim specifies is 29. -/
theorem cpuPercent_exact_counterexample :
    calculateCPUPercent 290000000 0 1000000000 = 28
    ∧ (100 * ((290000000 : Int) + 0)).tdiv 1000000000 = 29
    ∧ calculateCPUPercent 290000000 0 1000000000 ≠
        (100 * ((290000000 : Int) + 0)).tdiv 1000000000 := by
  refine ⟨by decide, by decide, by decide⟩

set_option maxRecDepth 8000 in
/-- C1 (amended): `calculateCPUPercent` computes in float64: when the
elapsed seconds are positive — equivalently, when the elapsed nanosecond
count is positive — the result is the truncation toward zero of the
float64-evaluated `(user seconds + system seconds) / elapsed seconds *
100`, which can fall below the exact truncated ratio; when the elapsed
seconds are not positive the result is 0; the result is never clamped to
100; and the four spec examples hold. -/
theorem cpuPercent_float_correct :
    (∀ elapsed : Int, 0 < (goSeconds elapsed).m ↔ 0 < elapsed)
    ∧ (∀ user sys elapsed : Int, 0 < elapsed →
        calculateCPUPercent user sys elapsed =
          Fl.toInt (Fl.mul (Fl.div (Fl.add (goSeconds user) (goSeconds sys))
            (goSeconds elapsed)) (Fl.ofInt 100)))
    ∧ (∀ user sys elapsed : Int, ¬ 0 < elapsed → calculateCPUPercent user sys elapsed = 0)
    ∧ calculateCPUPercent 500000000 500000000 1000000000 = 100
    ∧ calculateCPUPercent 500000000 500000000 0 = 0
    ∧ calculateCPUPercent 10000000 10000000 1000000000 = 2
    ∧ calculateCPUPercent 2000000000 500000000 1000000000 = 250
    ∧ 100 < calculateCPUPercent 2000000000 500000000 1000000000 := by
  refine ⟨goSeconds_m_pos_iff, ?_, ?_, by decide, by decide, by decide, by decide, by decide⟩
  · intro user sys elapsed he
    have hm := (goSeconds_m_pos_iff elapsed).mpr he
    unfold calculateCPUPercent
    rw [if_pos hm]
  · intro user sys elapsed he
    have hm : ¬ 0 < (goSeconds elapsed).m :=
      fun hpos => he ((goSeconds_m_pos_iff elapsed).mp hpos)
    unfold calculateCPUPercent
    rw [if_neg hm]

set_option maxRecDepth 8000 in
/-- Witness for the amended C1 at the divergent input and at a zero
elapsed time. -/
theorem cpuPercent_float_correct_witness :
    calculateCPUPercent 290000000 0 1000000000 =
        Fl.toInt (Fl.mul (Fl.div (Fl.add (goSeconds 290000000) (goSeconds 0))
          (goSeconds 1000000000)) (Fl.ofInt 100))
    ∧ calculateCPUPercent 500000000 500000000 0 = 0 :=
  ⟨cpuPercent_float_correct.2.1 290000000 0 1000000000 (by decide),
   cpuPercent_float_correct.2.2.1 500000000 500000000 0 (by decide)⟩

/-- C2: a child that exits normally with code c makes the wrapper exit
with c; a child killed by signal n makes it exit with 128 + n, so SIGINT
gives 130; a command that never started makes it exit with the reserved
nonzero code 127. -/
theorem exitCode_correct :
    (∀ code : Int, wrapperExitCode (RunError.exited code) = code)
    ∧ wrapperExitCode RunError.noError = 0
    ∧ (∀ sig : Int, wrapperExitCode (RunError.exitSignaled sig) = 128 + sig)
    ∧ wrapperExitCode (RunError.exitSignaled SIGINT) = 130
    ∧ wrapperExitCode RunError.startFailed = 127
    ∧ wrapperExitCode RunError.startFailed ≠ 0 := by
  refine ⟨fun code => rfl, rfl, fun sig => rfl, by decide, rfl, by decide⟩

/-- C4: a percent followed by an unrecognized character renders as the
literal percent and that character, unchanged; the percent-Z example
renders literally for every metrics value; and a percent that ends the
template is emitted as a literal percent. -/
theorem unknownSpecifier_correct :
    (∀ (m : Metrics) (c : Char) (rest : List Char), c ∉ recognizedSpecifiers →
        format m ('%' :: c :: rest) =
          String.singleton '%' ++ String.singleton c ++ format m rest)
    ∧ (∀ m : Metrics, render tmplPctZ m = "%Z")
    ∧ (∀ (m : Metrics) (s : List Char), '%' ∉ s →
        format m (s ++ ['%']) = String.mk s ++ String.singleton '%') := by
  refine ⟨?_, fun m => rfl, ?_⟩
  · intro m c rest hmem
    simp only [recognizedSpecifiers, List.mem_cons, List.mem_singleton, not_or] at hmem
    obtain ⟨h0, hJ, hU, hS, hE, hP, hstar, hM, hW, hX, hD, hK, hF, hR, hIb, hOb,
      hrr, hss, hkk, hww, hcc⟩ := hmem
    rw [format_spec_cons m c rest hstar]
    simp [specOutput, handleSpecifier, handleIntSpecifier, h0, hJ, hU, hS, hE, hP, hM, hW,
      hX, hD, hK, hF, hR, hIb, hOb, hrr, hss, hkk, hww, hcc]
  · intro m s hs
    induction s with
    | nil => rfl
    | cons c rest ih =>
      rw [List.mem_cons, not_or] at hs
      obtain ⟨h1, h2⟩ := hs
      rw [List.cons_append, format_cons_ne m c _ (fun hc => h1 hc.symm), ih h2]
      rfl

/-- Witness for C4 at the character Z and at a one-character template
ending in a percent. -/
theorem unknownSpecifier_correct_witness :
    format Metrics.zero ['%', 'Z'] =
        String.singleton '%' ++ String.singleton 'Z' ++ format Metrics.zero []
    ∧ format Metrics.zero (['a'] ++ ['%']) = String.mk ['a'] ++ String.singleton '%' :=
  ⟨unknownSpecifier_correct.1 Metrics.zero 'Z' [] (by decide),
   unknownSpecifier_correct.2.2 Metrics.zero ['a'] (by decide)⟩

/-- C5: an unset or empty TIMEFMT selects the default template, a
non-empty one is used as given, and the default template renders the
spec's example metrics to exactly the expected summary line. -/
theorem defaultTemplate_correct :
    (∀ env : String, env = "" → selectTemplate env = defaultTemplate)
    ∧ (∀ env : String, env ≠ "" → selectTemplate env = env)
    ∧ render defaultTemplate mDefault =
        "sleep 1  0.50s user 0.25s system 30% cpu 0:02.50 total" := by
  refine ⟨?_, ?_, rfl⟩
  · intro env h
    simp [selectTemplate, h]
  · intro env h
    simp [selectTemplate, h]

/-- Witness for C5 at the empty environment value and at the default
template itself as the environment value. -/
theorem defaultTemplate_correct_witness :
    selectTemplate (String.mk []) = defaultTemplate
    ∧ selectTemplate defaultTemplate = defaultTemplate :=
  ⟨defaultTemplate_correct.1 (String.mk []) (by decide),
   defaultTemplate_correct.2.1 defaultTemplate (by decide)⟩

/-- C6: each integer-counter specifier renders the decimal value of its
field, the derived D and K specifiers render the sums of the unshared and
shared sizes, and the spec's batch example renders exactly as given. -/
theorem intCounters_correct :
    (∀ (m : Metrics) (rest : List Char),
        format m ('%' :: 'M' :: rest) = toString m.MaxRSS ++ format m rest)
    ∧ (∀ (m : Metrics) (rest : List Char),
        format m ('%' :: 'W' :: rest) = toString m.Swaps ++ format m rest)
    ∧ (∀ (m : Metrics) (rest : List Char),
        format m ('%' :: 'X' :: rest) = toString m.SharedRSS ++ format m rest)
    ∧ (∀ (m : Metrics) (rest : List Char),
        format m ('%' :: 'D' :: rest) =
          toString (m.UnsharedData + m.UnsharedStk) ++ format m rest)
    ∧ (∀ (m : Metrics) (rest : List Char),
        format m ('%' :: 'K' :: rest) =
          toString (m.SharedRSS + m.UnsharedData + m.UnsharedStk) ++ format m rest)
    ∧ (∀ (m : Metrics) (rest : List Char),
        format m ('%' :: 'F' :: rest) = toString m.PageFaults ++ format m rest)
    ∧ (∀ (m : Metrics) (rest : List Char),
        format m ('%' :: 'R' :: rest) = toString m.PageReclaims ++ format m rest)
    ∧ (∀ (m : Metrics) (rest : List Char),
        format m ('%' :: 'I' :: rest) = toString m.BlockInput ++ format m rest)
    ∧ (∀ (m : Metrics) (rest : List Char),
        format m ('%' :: 'O' :: rest) = toString m.BlockOutput ++ format m rest)
    ∧ (∀ (m : Metrics) (rest : List Char),
        format m ('%' :: 'r' :: rest) = toString m.MsgsRecv ++ format m rest)
    ∧ (∀ (m : Metrics) (rest : List Char),
        format m ('%' :: 's' :: rest) = toString m.MsgsSent ++ format m rest)
    ∧ (∀ (m : Metrics) (rest : List Char),
        format m ('%' :: 'k' :: rest) = toString m.Signals ++ format m rest)
    ∧ (∀ (m : Metrics) (rest : List Char),
        format m ('%' :: 'w' :: rest) = toString m.VCtxSwitches ++ format m rest)
    ∧ (∀ (m : Metrics) (rest : List Char),
        format m ('%' :: 'c' :: rest) = toString m.ICtxSwitches ++ format m rest)
    ∧ render tmplCounters mCounters = "5 512 384 896 10 20 100 200 50 60 2 15 25" := by
  refine ⟨?_, ?_, ?_, ?_, ?_, ?_, ?_, ?_, ?_, ?_, ?_, ?_, ?_, ?_, rfl⟩
  all_goals intro m rest
  all_goals rw [format_spec_cons m _ rest (by decide)]
  all_goals simp [specOutput, handleSpecifier, handleIntSpecifier]

/-- C7: a template without percent signs renders to itself. -/
theorem renderNoPercent_identity (t : String) (m : Metrics) (h : '%' ∉ t.data) :
    render t m = t := by
  obtain ⟨s⟩ := t
  show format m s = String.mk s
  exact format_no_pct m s h

/-- Witness for C7 at a percent-free literal template. -/
theorem renderNoPercent_identity_witness :
    '%' ∉ tmplPlain.data ∧ render tmplPlain Metrics.zero = tmplPlain :=
  ⟨by decide, renderNoPercent_identity tmplPlain Metrics.zero (by decide)⟩

/-- C8: a doubled percent renders as one literal percent, for every
metrics value and wherever it occurs, and the spec's example holds. -/
theorem literalPercent_correct :
    (∀ (m : Metrics) (rest : List Char),
        format m ('%' :: '%' :: rest) = String.singleton '%' ++ format m rest)
    ∧ (∀ m : Metrics, render tmplHundred m = "100%") := by
  refine ⟨?_, fun m => rfl⟩
  intro m rest
  rw [format_spec_cons m _ rest (by decide)]
  simp [specOutput, handleSpecifier]

/-- C9: with a nil process state the extracted metrics still carry the
space-joined command line and the elapsed time, while the CPU times, the
CPU percentage, and every resource counter are zero. -/
theorem extractMetrics_nil_correct (startT endT : Int) (args : List String) :
    (extractMetrics none startT endT args).Command =
        String.intercalate (String.singleton ' ') args
    ∧ (extractMetrics none startT endT args).ElapsedTime = endT - startT
    ∧ (extractMetrics none startT endT args).UserTime = 0
    ∧ (extractMetrics none startT endT args).SystemTime = 0
    ∧ (extractMetrics none startT endT args).CPUPercent = 0
    ∧ (extractMetrics none startT endT args).MaxRSS = 0
    ∧ (extractMetrics none startT endT args).SharedRSS = 0
    ∧ (extractMetrics none startT endT args).UnsharedRSS = 0
    ∧ (extractMetrics none startT endT args).UnsharedData = 0
    ∧ (extractMetrics none startT endT args).UnsharedStk = 0
    ∧ (extractMetrics none startT endT args).PageFaults = 0
    ∧ (extractMetrics none startT endT args).PageReclaims = 0
    ∧ (extractMetrics none startT endT args).Swaps = 0
    ∧ (extractMetrics none startT endT args).BlockInput = 0
    ∧ (extractMetrics none startT endT args).BlockOutput = 0
    ∧ (extractMetrics none startT endT args).MsgsSent = 0
    ∧ (extractMetrics none startT endT args).MsgsRecv = 0
    ∧ (extractMetrics none startT endT args).Signals = 0
    ∧ (extractMetrics none startT endT args).VCtxSwitches = 0
    ∧ (extractMetrics none startT endT args).ICtxSwitches = 0 :=
  ⟨rfl, rfl, rfl, rfl, rfl, rfl, rfl, rfl, rfl, rfl,
   rfl, rfl, rfl, rfl, rfl, rfl, rfl, rfl, rfl, rfl⟩

/-- The rusage copy never writes the UnsharedRSS field. -/
theorem populateUsage_unsharedRSS (m : Metrics) (u : Option Rusage) :
    (populateUsage m u).UnsharedRSS = m.UnsharedRSS := by
  cases u <;> rfl

/-- C10: no operation assigns UnsharedRSS — the rusage copy leaves it
alone and extraction always leaves it zero — and no template specifier
reads it, so overwriting it never changes any rendered output. -/
theorem unsharedRSS_inert :
    (∀ (m : Metrics) (u : Option Rusage),
        (populateUsage m u).UnsharedRSS = m.UnsharedRSS)
    ∧ (∀ (ps : Option ProcState) (startT endT : Int) (args : List String),
        (extractMetrics ps startT endT args).UnsharedRSS = 0)
    ∧ (∀ (t : String) (m : Metrics) (v : Int),
        render t { m with UnsharedRSS := v } = render t m) := by
  refine ⟨populateUsage_unsharedRSS, ?_, ?_⟩
  · intro ps startT endT args
    cases ps with
    | none => rfl
    | some st =>
      obtain ⟨ut, sysT, su⟩ := st
      cases su <;> rfl
  · intro t m v
    obtain ⟨s⟩ := t
    show format { m with UnsharedRSS := v } s = format m s
    exact format_set_unsharedRSS m v s

end Ztime
